import Mathlib

/-!
Verification development for the Lead-Enrich repository: a shallow embedding
of the field-enrichment orchestrator's data model and of the Next.js API
route `src/app/api/enrich-python/route.ts`, with theorems settling the
specification's claims about classification, scheduling, caching, retry,
streaming and the HTTP handler.
-/

namespace LeadEnrich

/-! ## String utilities

JavaScript `toLowerCase`/`includes` modelled over character lists (the
field vocabulary is ASCII, so lowering is modelled on the ASCII range). -/

/-- ASCII lower-casing of one character. -/
def charLower (c : Char) : Char :=
  if 'A' ≤ c && c ≤ 'Z' then Char.ofNat (c.toNat + 32) else c

/-- The character list of a string, lower-cased. -/
def lowerData (s : String) : List Char :=
  s.data.map charLower

/-- Predicate `listStartsWith hay needle` holds when `needle` is an initial segment of `hay`. -/
def listStartsWith : List Char → List Char → Bool
  | _, [] => true
  | [], _ :: _ => false
  | a :: s, b :: t => a == b && listStartsWith s t

/-- Predicate `containsSub needle hay`: `needle` occurs contiguously somewhere in `hay`. -/
def containsSub (needle : List Char) : List Char → Bool
  | [] => listStartsWith [] needle
  | c :: rest => listStartsWith (c :: rest) needle || containsSub needle rest

/-- JavaScript `hay.includes(pat)` on an already-lowered character list. -/
def textIncludes (hay : List Char) (pat : String) : Bool :=
  containsSub pat.data hay

/-! ## Capability domains and fields (spec §3) -/

/-- The closed set of capability domains from the data model. -/
inductive CapabilityDomain
  | Discovery
  | Profile
  | Funding
  | TechStack
  | Metrics
  | General
  deriving DecidableEq, Repr

/-- A requested output field: name plus free-form description.
(The data model's `domain` attribute is what the classifier computes, and
`required` plays no role in classification or merging.) -/
structure EnrichmentField where
  name : String
  description : String
  deriving DecidableEq, Repr

/-! ## Field Classifier (spec §4.1)

Modelled from the spec: the classifier lives in `orchestrator.ts`, which is
not part of the provided sources; its routing table is documented both in
spec §4.1 and in the repository's own architecture notes
("fund|invest" → Funding, "tech|stack" → TechStack,
"employee|revenue" → Metrics, "industry|headquarter" → Profile,
everything else → General), evaluated in declaration order with the first
matching group winning. -/

/-- The ordered keyword-group table, in declaration order. -/
def keywordGroups : List (List String × CapabilityDomain) :=
  [ (["fund", "invest"], CapabilityDomain.Funding)
  , (["tech", "stack"], CapabilityDomain.TechStack)
  , (["employee", "revenue"], CapabilityDomain.Metrics)
  , (["industry", "headquarter"], CapabilityDomain.Profile) ]

/-- The lower-cased text a field is matched against: its name and description. -/
def fieldText (f : EnrichmentField) : List Char :=
  lowerData f.name ++ ' ' :: lowerData f.description

/-- A keyword group matches a field when any of its keywords occurs in the
field's lower-cased name-plus-description text. -/
def groupMatches (kws : List String) (f : EnrichmentField) : Bool :=
  kws.any fun kw => textIncludes (fieldText f) kw

/-- First-match scan down the ordered group table; no match falls back to General. -/
def classifyAux (f : EnrichmentField) : List (List String × CapabilityDomain) → CapabilityDomain
  | [] => CapabilityDomain.General
  | (kws, d) :: rest => if groupMatches kws f then d else classifyAux f rest

/-- Modelled from the spec: `classify(field) -> CapabilityDomain`, the pure
routing function of `orchestrator.ts`. -/
def classify (f : EnrichmentField) : CapabilityDomain :=
  classifyAux f keywordGroups

/-! ## AgentToggle recommendation logic (components/agent-toggle source)

Embedded from the `AgentToggle` component: the specialized-field detection
and the recommended-agents list it derives from the requested fields. -/

/-- The component's `specializedFieldPatterns` array, in source order. -/
def specializedFieldPatterns : List String :=
  [ "company", "industry", "employee", "fund", "invest", "valuation"
  , "ceo", "founder", "executive", "product", "service", "tech"
  , "email", "phone", "social", "contact" ]

/-- The component expression `fields.map(f => f.name.toLowerCase())`. -/
def fieldNamesLower (fields : List EnrichmentField) : List (List Char) :=
  fields.map fun f => lowerData f.name

/-- The component expression `fields.map(f => f.description.toLowerCase()).join(' ')`. -/
def fieldDescriptionsLower (fields : List EnrichmentField) : List Char :=
  List.intercalate [' '] (fields.map fun f => lowerData f.description)

/-- The component expression `specializedFieldPatterns.some(pattern =>
fieldNames.some(name => name.includes(pattern)) ||
fieldDescriptions.includes(pattern))`. -/
def hasSpecializedFields (fields : List EnrichmentField) : Bool :=
  specializedFieldPatterns.any fun pattern =>
    (fieldNamesLower fields).any (fun name => textIncludes name pattern)
      || textIncludes (fieldDescriptionsLower fields) pattern

/-- The `recommendedAgents` list built by the component's four `if` pushes,
in source order. -/
def recommendedAgents (fields : List EnrichmentField) : List String :=
  let names := fieldNamesLower fields
  let descs := fieldDescriptionsLower fields
  (if names.any (fun n => textIncludes n "company" || textIncludes n "industry")
      || textIncludes descs "company" then ["Company Research"] else [])
  ++ (if names.any (fun n => textIncludes n "fund" || textIncludes n "invest")
      || textIncludes descs "funding" then ["Fundraising Intelligence"] else [])
  ++ (if names.any (fun n => textIncludes n "ceo" || textIncludes n "founder")
      || textIncludes descs "leadership" then ["People & Leadership"] else [])
  ++ (if names.any (fun n => textIncludes n "product" || textIncludes n "tech")
      || textIncludes descs "product" then ["Product & Technology"] else [])

end LeadEnrich

namespace LeadEnrich

/-! ## Claim theorems: classification -/

/-- C3: the classifier assigns exactly one `CapabilityDomain` per field by
testing the lower-cased name and description against the ordered keyword
groups; the first group in declaration order that matches wins, and a field
matching no group is assigned `General`. -/
theorem C3_classifier_first_match (f : EnrichmentField) :
    ((∀ g ∈ keywordGroups, groupMatches g.1 f = false) →
      classify f = CapabilityDomain.General)
    ∧ (∀ i kws d, keywordGroups.get? i = some (kws, d) →
        groupMatches kws f = true →
        (∀ j kws' d', j < i → keywordGroups.get? j = some (kws', d') →
          groupMatches kws' f = false) →
        classify f = d) := by
  constructor
  · intro h
    have h0 := h (["fund", "invest"], CapabilityDomain.Funding) (by simp [keywordGroups])
    have h1 := h (["tech", "stack"], CapabilityDomain.TechStack) (by simp [keywordGroups])
    have h2 := h (["employee", "revenue"], CapabilityDomain.Metrics) (by simp [keywordGroups])
    have h3 := h (["industry", "headquarter"], CapabilityDomain.Profile) (by simp [keywordGroups])
    simp [classify, classifyAux, keywordGroups, h0, h1, h2, h3]
  · intro i kws d hget hi hlt
    have hlen : i < 4 := by
      by_contra hge
      push_neg at hge
      rw [List.get?_eq_none.mpr (by simp [keywordGroups]; omega)] at hget
      exact Option.noConfusion hget
    interval_cases i
    · simp [keywordGroups] at hget
      obtain ⟨rfl, rfl⟩ := hget
      simp [classify, classifyAux, keywordGroups, hi]
    · have h0 := hlt 0 ["fund", "invest"] CapabilityDomain.Funding (by omega) rfl
      simp [keywordGroups] at hget
      obtain ⟨rfl, rfl⟩ := hget
      simp [classify, classifyAux, keywordGroups, hi, h0]
    · have h0 := hlt 0 ["fund", "invest"] CapabilityDomain.Funding (by omega) rfl
      have h1 := hlt 1 ["tech", "stack"] CapabilityDomain.TechStack (by omega) rfl
      simp [keywordGroups] at hget
      obtain ⟨rfl, rfl⟩ := hget
      simp [classify, classifyAux, keywordGroups, hi, h0, h1]
    · have h0 := hlt 0 ["fund", "invest"] CapabilityDomain.Funding (by omega) rfl
      have h1 := hlt 1 ["tech", "stack"] CapabilityDomain.TechStack (by omega) rfl
      have h2 := hlt 2 ["employee", "revenue"] CapabilityDomain.Metrics (by omega) rfl
      simp [keywordGroups] at hget
      obtain ⟨rfl, rfl⟩ := hget
      simp [classify, classifyAux, keywordGroups, hi, h0, h1, h2]

/-- Witness for C3 at concrete fields: a field matching no keyword group is
assigned General, and a field whose text matches the first group (and none
before it) is assigned Funding. -/
theorem C3_classifier_first_match_witness :
    classify ⟨"email_address", "primary contact email"⟩ = CapabilityDomain.General
    ∧ classify ⟨"funding_round", "latest raise"⟩ = CapabilityDomain.Funding :=
  ⟨(C3_classifier_first_match ⟨"email_address", "primary contact email"⟩).1 (by decide),
   (C3_classifier_first_match ⟨"funding_round", "latest raise"⟩).2 0
     ["fund", "invest"] CapabilityDomain.Funding rfl (by decide)
     (fun j kws' d' hj _ => absurd hj (by omega))⟩

/-- C8: field classification is deterministic — two calls on identical field
inputs yield identical domain assignments and identical recommendation
output (`recommendedAgents`, `hasSpecializedFields`), with no hidden state. -/
theorem C8_classification_deterministic (fs gs : List EnrichmentField)
    (h : fs = gs) :
    fs.map classify = gs.map classify
    ∧ recommendedAgents fs = recommendedAgents gs
    ∧ hasSpecializedFields fs = hasSpecializedFields gs := by
  subst h
  exact ⟨rfl, rfl, rfl⟩

/-- Witness for C8 at a concrete field list. -/
theorem C8_classification_deterministic_witness :
    [EnrichmentField.mk "company_name" "name of the company"].map classify
        = [EnrichmentField.mk "company_name" "name of the company"].map classify
    ∧ recommendedAgents [EnrichmentField.mk "company_name" "name of the company"]
        = recommendedAgents [EnrichmentField.mk "company_name" "name of the company"]
    ∧ hasSpecializedFields [EnrichmentField.mk "company_name" "name of the company"]
        = hasSpecializedFields [EnrichmentField.mk "company_name" "name of the company"] :=
  C8_classification_deterministic _ _ rfl

/-! ## Dependency Scheduler (spec §4.4)

Modelled from the spec: the scheduler lives in `orchestrator.ts`, which is
not part of the provided sources. The state machine below follows §4.4's
transition rules: Discovery runs first and alone; once Discovery reaches a
terminal status the requested non-General domains fan out concurrently
(modelled by an arbitrary interleaving of start/finish choices); General
runs last. A choice that is not enabled in the current phase is a no-op. -/

/-- The event-stream alphabet of spec §4.6 restricted to one row. -/
inductive SchedEvent
  | stageStarted (d : CapabilityDomain)
  | stageCompleted (d : CapabilityDomain)
  | stageFailed (d : CapabilityDomain)
  | rowCompleted
  deriving DecidableEq, Repr

/-- An event marking Discovery's terminal status (success or failure). -/
def discoveryTerminal (e : SchedEvent) : Bool :=
  e == SchedEvent.stageCompleted CapabilityDomain.Discovery
    || e == SchedEvent.stageFailed CapabilityDomain.Discovery

/-- The four fan-out domains of §4.4. -/
def isFanOutDomain : CapabilityDomain → Bool
  | CapabilityDomain.Profile => true
  | CapabilityDomain.Funding => true
  | CapabilityDomain.TechStack => true
  | CapabilityDomain.Metrics => true
  | _ => false

/-- Scheduler phases; `fanOut` tracks the not-yet-started and currently
running fan-out domains. -/
inductive SchedPhase
  | pending
  | discoveryRunning
  | fanOut (pendingD runningD : List CapabilityDomain)
  | generalRunning
  | complete
  deriving DecidableEq, Repr

/-- Scheduler state: current phase plus the emitted event log, in order. -/
structure SchedState where
  phase : SchedPhase
  events : List SchedEvent
  deriving Repr

/-- One nondeterministic scheduling choice (which enabled task advances). -/
inductive SchedChoice
  | startDiscovery
  | finishDiscovery (ok : Bool)
  | startStage (d : CapabilityDomain)
  | finishStage (d : CapabilityDomain) (ok : Bool)
  | startGeneral
  | finishGeneral (ok : Bool)

/-- The non-General domains with at least one requested field. -/
def fanOutDomains (fields : List EnrichmentField) : List CapabilityDomain :=
  [ CapabilityDomain.Profile, CapabilityDomain.Funding
  , CapabilityDomain.TechStack, CapabilityDomain.Metrics].filter
    fun d => fields.any fun f => classify f == d

/-- The terminal event for a stage: completed on success, failed otherwise. -/
def terminalEvent (d : CapabilityDomain) (ok : Bool) : SchedEvent :=
  if ok then SchedEvent.stageCompleted d else SchedEvent.stageFailed d

/-- One scheduler step; disabled choices leave the state unchanged. -/
def schedStep (fields : List EnrichmentField) (s : SchedState) (c : SchedChoice) :
    SchedState :=
  match s.phase, c with
  | SchedPhase.pending, SchedChoice.startDiscovery =>
      { phase := SchedPhase.discoveryRunning
      , events := s.events ++ [SchedEvent.stageStarted CapabilityDomain.Discovery] }
  | SchedPhase.discoveryRunning, SchedChoice.finishDiscovery ok =>
      { phase := SchedPhase.fanOut (fanOutDomains fields) []
      , events := s.events ++ [terminalEvent CapabilityDomain.Discovery ok] }
  | SchedPhase.fanOut pd rd, SchedChoice.startStage d =>
      if d ∈ pd then
        { phase := SchedPhase.fanOut (pd.erase d) (rd ++ [d])
        , events := s.events ++ [SchedEvent.stageStarted d] }
      else s
  | SchedPhase.fanOut pd rd, SchedChoice.finishStage d ok =>
      if d ∈ rd then
        { phase := SchedPhase.fanOut pd (rd.erase d)
        , events := s.events ++ [terminalEvent d ok] }
      else s
  | SchedPhase.fanOut pd rd, SchedChoice.startGeneral =>
      if pd = [] ∧ rd = [] then
        { phase := SchedPhase.generalRunning
        , events := s.events ++ [SchedEvent.stageStarted CapabilityDomain.General] }
      else s
  | SchedPhase.generalRunning, SchedChoice.finishGeneral ok =>
      { phase := SchedPhase.complete
      , events := s.events ++ [terminalEvent CapabilityDomain.General ok, SchedEvent.rowCompleted] }
  | _, _ => s

/-- The initial scheduler state. -/
def schedInit : SchedState :=
  { phase := SchedPhase.pending, events := [] }

/-- Run the scheduler under an arbitrary sequence of choices. -/
def schedRun (fields : List EnrichmentField) (cs : List SchedChoice) : SchedState :=
  cs.foldl (schedStep fields) schedInit

/-- Every fan-out `stageStarted` event is preceded by a Discovery terminal event. -/
def fanOutAfterDiscovery (evs : List SchedEvent) : Prop :=
  ∀ i d, evs.get? i = some (SchedEvent.stageStarted d) → isFanOutDomain d = true →
    ∃ k, k < i ∧ ∃ e, evs.get? k = some e ∧ discoveryTerminal e = true

/-- Phases reachable only after Discovery has reached terminal status. -/
def phasePastDiscovery : SchedPhase → Bool
  | SchedPhase.fanOut _ _ => true
  | SchedPhase.generalRunning => true
  | SchedPhase.complete => true
  | _ => false

/-- The scheduler invariant: the ordering property on the log, plus the fact
that any phase past Discovery has a Discovery terminal event in the log. -/
def SchedInv (s : SchedState) : Prop :=
  fanOutAfterDiscovery s.events
  ∧ (phasePastDiscovery s.phase = true → ∃ e ∈ s.events, discoveryTerminal e = true)

lemma fanOutAfterDiscovery_append (evs : List SchedEvent) (e : SchedEvent)
    (h : fanOutAfterDiscovery evs)
    (he : ∀ d, e = SchedEvent.stageStarted d → isFanOutDomain d = true →
      ∃ x ∈ evs, discoveryTerminal x = true) :
    fanOutAfterDiscovery (evs ++ [e]) := by
  intro i d hget hfan
  rcases Nat.lt_or_ge i evs.length with hlt | hge
  · rw [List.get?_append hlt] at hget
    obtain ⟨k, hk, x, hx, hxt⟩ := h i d hget hfan
    exact ⟨k, hk, x, by rw [List.get?_append (lt_trans hk hlt)]; exact hx, hxt⟩
  · rw [List.get?_append_right hge] at hget
    have hi0 : i - evs.length = 0 := by
      by_contra hne
      rw [List.get?_eq_none.mpr (by simp; omega)] at hget
      exact Option.noConfusion hget
    rw [hi0] at hget
    simp at hget
    obtain ⟨x, hxmem, hxt⟩ := he d hget hfan
    obtain ⟨n, hn⟩ := List.get?_of_mem hxmem
    have hnlen : n < evs.length := (List.get?_eq_some.mp hn).1
    exact ⟨n, by omega, x, by rw [List.get?_append hnlen]; exact hn, hxt⟩

lemma schedStep_inv (fields : List EnrichmentField) (s : SchedState)
    (c : SchedChoice) (h : SchedInv s) : SchedInv (schedStep fields s c) := by
  obtain ⟨h1, h2⟩ := h
  rcases s with ⟨ph, evs⟩
  dsimp only [SchedInv] at h1 h2 ⊢
  cases ph <;> cases c <;> dsimp only [schedStep]
  case pending.startDiscovery =>
    refine ⟨fanOutAfterDiscovery_append _ _ h1 ?_, by simp [phasePastDiscovery]⟩
    intro d hd hfan
    cases hd
    simp [isFanOutDomain] at hfan
  case discoveryRunning.finishDiscovery ok =>
    refine ⟨fanOutAfterDiscovery_append _ _ h1 ?_, ?_⟩
    · intro d hd hfan
      cases ok <;> simp [terminalEvent] at hd
    · intro
      exact ⟨terminalEvent CapabilityDomain.Discovery ok, by simp,
        by cases ok <;> simp [terminalEvent, discoveryTerminal]⟩
  case fanOut.startStage pd rd d =>
    by_cases hd : d ∈ pd
    · rw [if_pos hd]
      have hterm := h2 rfl
      refine ⟨fanOutAfterDiscovery_append _ _ h1 ?_, ?_⟩
      · intro d' hd' _
        cases hd'
        exact hterm
      · intro
        obtain ⟨x, hx, hxt⟩ := hterm
        exact ⟨x, by simp [hx], hxt⟩
    · rw [if_neg hd]
      exact ⟨h1, h2⟩
  case fanOut.finishStage pd rd d ok =>
    by_cases hd : d ∈ rd
    · rw [if_pos hd]
      refine ⟨fanOutAfterDiscovery_append _ _ h1 ?_, ?_⟩
      · intro d' hd' _
        cases ok <;> simp [terminalEvent] at hd'
      · intro
        obtain ⟨x, hx, hxt⟩ := h2 rfl
        exact ⟨x, by simp [hx], hxt⟩
    · rw [if_neg hd]
      exact ⟨h1, h2⟩
  case fanOut.startGeneral pd rd =>
    by_cases hempty : pd = [] ∧ rd = []
    · rw [if_pos hempty]
      refine ⟨fanOutAfterDiscovery_append _ _ h1 ?_, ?_⟩
      · intro d hd hfan
        cases hd
        simp [isFanOutDomain] at hfan
      · intro
        obtain ⟨x, hx, hxt⟩ := h2 rfl
        exact ⟨x, by simp [hx], hxt⟩
    · rw [if_neg hempty]
      exact ⟨h1, h2⟩
  case generalRunning.finishGeneral ok =>
    have hterm := h2 rfl
    refine ⟨?_, ?_⟩
    · have hsplit : evs ++ [terminalEvent CapabilityDomain.General ok, SchedEvent.rowCompleted]
          = (evs ++ [terminalEvent CapabilityDomain.General ok]) ++ [SchedEvent.rowCompleted] := by
        simp
      rw [hsplit]
      refine fanOutAfterDiscovery_append _ _ ?_ ?_
      · refine fanOutAfterDiscovery_append _ _ h1 ?_
        intro d hd _
        cases ok <;> simp [terminalEvent] at hd
      · intro d hd _
        cases hd
    · intro
      obtain ⟨x, hx, hxt⟩ := hterm
      exact ⟨x, by simp [hx], hxt⟩
  all_goals exact ⟨h1, h2⟩

lemma schedFoldl_inv (fields : List EnrichmentField) (cs : List SchedChoice) :
    ∀ s : SchedState, SchedInv s → SchedInv (cs.foldl (schedStep fields) s) := by
  induction cs with
  | nil => intro s hs; exact hs
  | cons c cs ih =>
      intro s hs
      exact ih _ (schedStep_inv fields s c hs)

/-- C1: in every scheduler run, Discovery reaches terminal status strictly
before any fan-out stage (Profile, Funding, TechStack, Metrics) emits its
`stageStarted` event: the event log always shows a Discovery terminal event
at an earlier position. -/
theorem C1_discovery_before_fanout (fields : List EnrichmentField)
    (cs : List SchedChoice) (i : ℕ) (d : CapabilityDomain)
    (hget : (schedRun fields cs).events.get? i = some (SchedEvent.stageStarted d))
    (hfan : isFanOutDomain d = true) :
    ∃ k, k < i ∧ ∃ e, (schedRun fields cs).events.get? k = some e
      ∧ discoveryTerminal e = true := by
  have hinv : SchedInv (schedRun fields cs) :=
    schedFoldl_inv fields cs schedInit
      ⟨fun i d hg _ => by simp [schedInit] at hg, by simp [schedInit, phasePastDiscovery]⟩
  exact hinv.1 i d hget hfan

/-- Witness for C1: a concrete run over one Funding field, where the
Funding stage starts at position 2, after Discovery's terminal event. -/
theorem C1_discovery_before_fanout_witness :
    ∃ k, k < 2 ∧ ∃ e,
      (schedRun [EnrichmentField.mk "funding_round" "total raised"]
        [SchedChoice.startDiscovery, SchedChoice.finishDiscovery true,
         SchedChoice.startStage CapabilityDomain.Funding]).events.get? k = some e
      ∧ discoveryTerminal e = true :=
  C1_discovery_before_fanout _ _ 2 CapabilityDomain.Funding (by decide) (by decide)

/-! ## Row Pipeline merge (spec §4.5 and §3 invariants)

Modelled from the spec: `processRow(record, fields) -> EnrichedRecord` of
the Row Pipeline, which is not part of the provided sources. Each domain
with at least one classified field (plus the always-run Discovery stage)
produces one `StageOutput` whose `extractedFields` map has exactly the
field names classified to that domain, each bound to the Extractor's value
or to null (`none`) when unresolved. -/

/-- The error kinds of spec §7. -/
inductive ErrorKind
  | Timeout
  | TransientSourceError
  | PermanentValidationError
  | ClassificationAmbiguous
  | CacheCoalescingTimeout
  | RunCancelled
  deriving DecidableEq, Repr

/-- One stage's output for one record (spec §3). -/
structure StageOutput where
  domain : CapabilityDomain
  extractedFields : List (String × Option String)
  sourceURLs : List String
  error : Option ErrorKind
  deriving DecidableEq, Repr

/-- The aggregate result for one input record (spec §3). -/
structure EnrichedRecord where
  identifierEmail : String
  stageOutputs : List (CapabilityDomain × StageOutput)
  errors : List ErrorKind
  deriving DecidableEq, Repr

/-- An opaque deterministic Extractor: per-domain, per-field value or null. -/
def Extractor := CapabilityDomain → String → Option String

/-- All capability domains, in the fixed enum order. -/
def allDomains : List CapabilityDomain :=
  [ CapabilityDomain.Discovery, CapabilityDomain.Profile, CapabilityDomain.Funding
  , CapabilityDomain.TechStack, CapabilityDomain.Metrics, CapabilityDomain.General ]

/-- The requested fields classified to a given domain. -/
def fieldsFor (fields : List EnrichmentField) (d : CapabilityDomain) :
    List EnrichmentField :=
  fields.filter fun f => classify f == d

/-- The domains a row executes: every domain with at least one classified
field, plus Discovery, which runs even when no Discovery field was
requested (spec §4.4). -/
def runDomains (fields : List EnrichmentField) : List CapabilityDomain :=
  allDomains.filter fun d =>
    d == CapabilityDomain.Discovery || !(fieldsFor fields d).isEmpty

/-- One stage's output: its classified fields, each mapped to the
Extractor's value (possibly null). -/
def runStage (extract : Extractor) (fields : List EnrichmentField)
    (d : CapabilityDomain) : StageOutput :=
  { domain := d
  , extractedFields := (fieldsFor fields d).map fun f => (f.name, extract d f.name)
  , sourceURLs := []
  , error := none }

/-- Modelled from the spec: the Row Pipeline's merge of stage outputs into
one `EnrichedRecord`. -/
def processRow (extract : Extractor) (email : String)
    (fields : List EnrichmentField) : EnrichedRecord :=
  { identifierEmail := email
  , stageOutputs := (runDomains fields).map fun d => (d, runStage extract fields d)
  , errors := [] }

/-- C2: for every record and non-empty requested field list (names unique
within a request, per the data model), each requested field's name appears
as a key in exactly one `StageOutput.extractedFields` map of the merged
`EnrichedRecord` — possibly bound to null, but never dropped. -/
theorem C2_no_field_dropped (extract : Extractor) (email : String)
    (fields : List EnrichmentField) (hne : fields ≠ [])
    (hnodup : (fields.map EnrichmentField.name).Nodup)
    (f : EnrichmentField) (hf : f ∈ fields) :
    ∃! d : CapabilityDomain, ∃ so : StageOutput,
      (d, so) ∈ (processRow extract email fields).stageOutputs
      ∧ f.name ∈ so.extractedFields.map Prod.fst := by
  refine ⟨classify f, ⟨runStage extract fields (classify f), ?_, ?_⟩, ?_⟩
  · apply List.mem_map_of_mem
    apply List.mem_filter.mpr
    refine ⟨?_, ?_⟩
    · cases h : classify f <;> simp [allDomains]
    · have hmem : f ∈ fieldsFor fields (classify f) :=
        List.mem_filter.mpr ⟨hf, by simp⟩
      rcases hd : fieldsFor fields (classify f) with _ | ⟨g, gs⟩
      · rw [hd] at hmem; exact absurd hmem (List.not_mem_nil f)
      · simp
  · have hmem : f ∈ fieldsFor fields (classify f) :=
      List.mem_filter.mpr ⟨hf, by simp⟩
    simp only [runStage, List.map_map]
    exact List.mem_map.mpr ⟨f, hmem, rfl⟩
  · rintro d' ⟨so', hso', hname⟩
    obtain ⟨d'', hd2, heq⟩ := List.mem_map.mp hso'
    have hfst : d'' = d' := congrArg Prod.fst heq
    have hsnd : runStage extract fields d'' = so' := congrArg Prod.snd heq
    subst hfst
    subst hsnd
    simp only [runStage, List.map_map] at hname
    obtain ⟨f', hf'mem, hf'name⟩ := List.mem_map.mp hname
    have hf'fields : f' ∈ fields := (List.mem_filter.mp hf'mem).1
    have hf'class : classify f' = d'' := by
      have := (List.mem_filter.mp hf'mem).2
      simpa using this
    have : f' = f :=
      List.inj_on_of_nodup_map hnodup hf'fields hf (by simpa using hf'name)
    rw [← hf'class, this]

/-- Witness for C2 at a concrete record and field list: the industry field
appears in exactly one stage-output map of the merged record. -/
theorem C2_no_field_dropped_witness :
    ∃! d : CapabilityDomain, ∃ so : StageOutput,
      (d, so) ∈ (processRow (fun _ _ => none) "a@stripe.com"
        [ EnrichmentField.mk "company_name" "the company"
        , EnrichmentField.mk "industry" "primary industry"]).stageOutputs
      ∧ "industry" ∈ so.extractedFields.map Prod.fst :=
  C2_no_field_dropped (fun _ _ => none) "a@stripe.com"
    [ EnrichmentField.mk "company_name" "the company"
    , EnrichmentField.mk "industry" "primary industry"]
    (by decide) (by decide)
    (EnrichmentField.mk "industry" "primary industry") (by decide)

/-! ## Evidence Cache (spec §4.2)

Modelled from the spec: `getOrFetch(query, fetcher)` with query
normalization (case-insensitive, whitespace-collapsed text plus domain) and
coalescing of concurrent callers. A run is an arbitrary interleaving of
atomic operations: a caller's `request` (check-and-register, the atomic
mutation required by §5) and a fetch `resolve` (success keeps the entry,
transient failure evicts it so a later stage may re-attempt). -/

/-- A normalized external lookup request (spec §3). -/
structure EvidenceQuery where
  queryText : String
  domain : CapabilityDomain
  deriving DecidableEq, Repr

/-- Split a character list into maximal whitespace-free tokens. -/
def wsTokens (acc : List Char) : List Char → List (List Char)
  | [] => if acc.isEmpty then [] else [acc.reverse]
  | c :: rest =>
      if c.isWhitespace then
        if acc.isEmpty then wsTokens [] rest
        else acc.reverse :: wsTokens [] rest
      else wsTokens (c :: acc) rest

/-- Lower-case and collapse runs of whitespace to single spaces. -/
def normalizeText (s : String) : List Char :=
  List.intercalate [' '] (wsTokens [] (lowerData s))

/-- The cache key of a query: normalized text plus domain; two queries are
equivalent iff their keys are equal (spec §3). -/
def normalizeQuery (q : EvidenceQuery) : List Char × CapabilityDomain :=
  (normalizeText q.queryText, q.domain)

/-- A cache key. -/
abbrev CacheKey := List Char × CapabilityDomain

/-- The lifecycle state of one cache entry. -/
inductive EntryState
  | inFlight
  | resolved
  deriving DecidableEq, Repr

/-- The cache: registered entries plus the log of issued fetch calls. -/
structure CacheState where
  entries : List (CacheKey × EntryState)
  fetches : List CacheKey

/-- One atomic cache operation within a run. -/
inductive CacheOp
  | request (q : EvidenceQuery)
  | resolve (k : CacheKey) (ok : Bool)

/-- Look up the entry registered under a key. -/
def lookupEntry (s : CacheState) (k : CacheKey) : Option EntryState :=
  (s.entries.find? fun p => p.1 == k).map Prod.snd

/-- One atomic step of the cache. A `request` whose key is already
registered (in flight or resolved) coalesces and issues no fetch; an
unregistered key registers in flight and issues exactly one fetch. A failed
fetch evicts its entry (transient caching of failures, spec §4.2). -/
def cacheStep (s : CacheState) (op : CacheOp) : CacheState :=
  match op with
  | CacheOp.request q =>
      match lookupEntry s (normalizeQuery q) with
      | some _ => s
      | none =>
          { entries := s.entries ++ [(normalizeQuery q, EntryState.inFlight)]
          , fetches := s.fetches ++ [normalizeQuery q] }
  | CacheOp.resolve k ok =>
      match lookupEntry s k with
      | some EntryState.inFlight =>
          if ok then
            { s with entries := s.entries.map fun p =>
                if p.1 == k then (p.1, EntryState.resolved) else p }
          else
            { s with entries := s.entries.filter fun p => !(p.1 == k) }
      | _ => s

/-- The empty cache at run start. -/
def cacheInit : CacheState :=
  { entries := [], fetches := [] }

/-- Run the cache under an arbitrary interleaving of operations. -/
def cacheRun (ops : List CacheOp) : CacheState :=
  ops.foldl cacheStep cacheInit

/-- No fetch in the run failed (the claim's mock-fetcher scenario). -/
def noFailedResolve (ops : List CacheOp) : Prop :=
  ∀ k, CacheOp.resolve k false ∉ ops

/-- The cache invariant: each key was fetched at most once, and every
fetched key is still registered. -/
def CacheInv (s : CacheState) : Prop :=
  ∀ k : CacheKey, s.fetches.count k ≤ 1
    ∧ (k ∈ s.fetches → (s.entries.find? fun p => p.1 == k).isSome = true)

lemma find?_append_isSome (l₁ l₂ : List (CacheKey × EntryState))
    (p : CacheKey × EntryState → Bool) :
    (((l₁ ++ l₂).find? p).isSome) = (((l₁.find? p).isSome) || ((l₂.find? p).isSome)) := by
  induction l₁ with
  | nil => simp
  | cons a t ih =>
      by_cases ha : p a = true <;> simp [List.find?_cons, ha, ih]

lemma find?_map_resolved (l : List (CacheKey × EntryState)) (k k' : CacheKey) :
    ((l.map fun p => if p.1 == k then (p.1, EntryState.resolved) else p).find?
        (fun p => p.1 == k')).isSome
      = (l.find? fun p => p.1 == k').isSome := by
  have hfun : ((fun p : CacheKey × EntryState => p.1 == k') ∘
      fun p : CacheKey × EntryState => if p.1 == k then (p.1, EntryState.resolved) else p)
      = fun p : CacheKey × EntryState => p.1 == k' := by
    funext p
    by_cases hk0 : p.1 = k <;> simp [hk0]
  rw [List.find?_map, hfun, Option.isSome_map']

lemma cacheStep_inv (s : CacheState) (op : CacheOp)
    (hok : ∀ k, op ≠ CacheOp.resolve k false) (h : CacheInv s) :
    CacheInv (cacheStep s op) := by
  cases op with
  | request q =>
      dsimp only [cacheStep]
      rcases hl : lookupEntry s (normalizeQuery q) with _ | st
      · have hfindnone : (s.entries.find? fun p => p.1 == normalizeQuery q) = none :=
          Option.map_eq_none'.mp hl
        intro k
        obtain ⟨hc, hm⟩ := h k
        constructor
        · by_cases hkq : k = normalizeQuery q
          · subst hkq
            have hzero : s.fetches.count (normalizeQuery q) = 0 :=
              List.count_eq_zero.mpr fun hmem => by
                have hsome := hm hmem
                rw [hfindnone] at hsome
                exact Bool.noConfusion hsome
            simp [List.count_append, hzero]
          · have hzero : List.count k [normalizeQuery q] = 0 :=
              List.count_eq_zero.mpr (by simp [List.mem_singleton, hkq])
            simp only [List.count_append, hzero]
            omega
        · intro hmem
          rw [find?_append_isSome]
          rcases List.mem_append.mp hmem with hold | hnew
          · rw [hm hold]
            rfl
          · have hknew : k = normalizeQuery q := by simpa using hnew
            rw [hknew]
            have hsingle : (List.find? (fun p => p.1 == normalizeQuery q)
                [(normalizeQuery q, EntryState.inFlight)]).isSome = true := by
              simp [List.find?]
            rw [hsingle]
            simp
      · exact h
  | resolve k0 ok =>
      cases ok with
      | false => exact absurd rfl (hok k0)
      | true =>
          dsimp only [cacheStep]
          rcases hl : lookupEntry s k0 with _ | st
          · exact h
          · cases st with
            | resolved => exact h
            | inFlight =>
                intro k
                obtain ⟨hc, hm⟩ := h k
                refine ⟨hc, fun hmem => ?_⟩
                have hfs := hm hmem
                show (List.find? (fun p => p.1 == k)
                    (s.entries.map fun p =>
                      if p.1 == k0 then (p.1, EntryState.resolved) else p)).isSome = true
                rw [find?_map_resolved s.entries k0 k]
                exact hfs

lemma cacheFoldl_inv (ops : List CacheOp) :
    ∀ s : CacheState, (∀ k, CacheOp.resolve k false ∉ ops) → CacheInv s →
      CacheInv (ops.foldl cacheStep s) := by
  induction ops with
  | nil => intro s _ hs; exact hs
  | cons op ops ih =>
      intro s hok hs
      refine ih _ (fun k hk => hok k (List.mem_cons_of_mem _ hk)) ?_
      refine cacheStep_inv s op (fun k heq => ?_) hs
      exact hok k (heq ▸ List.mem_cons_self _ _)

/-- C4: within one run with no failed fetches, every distinct normalized
query key is fetched at most once — concurrent callers issuing equivalent
queries coalesce instead of racing — and any two callers for equivalent
queries read the same cache entry. -/
theorem C4_cache_coalesces (ops : List CacheOp) (hok : noFailedResolve ops)
    (k : CacheKey) (q1 q2 : EvidenceQuery)
    (heq : normalizeQuery q1 = normalizeQuery q2) :
    (cacheRun ops).fetches.count k ≤ 1
    ∧ lookupEntry (cacheRun ops) (normalizeQuery q1)
        = lookupEntry (cacheRun ops) (normalizeQuery q2) := by
  refine ⟨?_, by rw [heq]⟩
  have hinv : CacheInv (cacheRun ops) := by
    refine cacheFoldl_inv ops cacheInit hok ?_
    intro k0
    exact ⟨by simp [cacheInit], fun hm => by simp [cacheInit] at hm⟩
  exact (hinv k).1

/-- Witness for C4: two concurrent requests for the same query up to case
and whitespace, plus the fetch resolution, issue exactly at most one fetch
for the shared key. -/
theorem C4_cache_coalesces_witness :
    (cacheRun
      [ CacheOp.request (EvidenceQuery.mk "  Acme   Corp " CapabilityDomain.Discovery)
      , CacheOp.request (EvidenceQuery.mk "acme corp" CapabilityDomain.Discovery)
      , CacheOp.resolve (normalizeQuery
          (EvidenceQuery.mk "acme corp" CapabilityDomain.Discovery)) true
      ]).fetches.count (normalizeQuery
        (EvidenceQuery.mk "acme corp" CapabilityDomain.Discovery)) ≤ 1
    ∧ lookupEntry (cacheRun
      [ CacheOp.request (EvidenceQuery.mk "  Acme   Corp " CapabilityDomain.Discovery)
      , CacheOp.request (EvidenceQuery.mk "acme corp" CapabilityDomain.Discovery)
      , CacheOp.resolve (normalizeQuery
          (EvidenceQuery.mk "acme corp" CapabilityDomain.Discovery)) true
      ]) (normalizeQuery (EvidenceQuery.mk "  Acme   Corp " CapabilityDomain.Discovery))
      = lookupEntry (cacheRun
      [ CacheOp.request (EvidenceQuery.mk "  Acme   Corp " CapabilityDomain.Discovery)
      , CacheOp.request (EvidenceQuery.mk "acme corp" CapabilityDomain.Discovery)
      , CacheOp.resolve (normalizeQuery
          (EvidenceQuery.mk "acme corp" CapabilityDomain.Discovery)) true
      ]) (normalizeQuery (EvidenceQuery.mk "acme corp" CapabilityDomain.Discovery)) :=
  C4_cache_coalesces _
    (by intro k hk; simp [List.mem_cons] at hk)
    _ _ _ (by decide)

/-! ## Stage Runner retry policy (spec §4.3)

Modelled from the spec: the Stage Runner's retry loop is part of
`agent-base.ts`, which is not part of the provided sources. Bounded
attempts; the base delay doubles after each transient failure; permanent
failures are never retried. The fetcher is indexed by attempt number; the
result records success, the number of attempts actually made, and the
backoff delays slept between attempts. -/

/-- The outcome of one fetch attempt. -/
inductive FetchOutcome
  | success
  | transient
  | permanent
  deriving DecidableEq, Repr

/-- The result of running a stage fetch under the retry policy. -/
structure RetryResult where
  ok : Bool
  attempts : Nat
  delays : List Nat
  deriving DecidableEq, Repr

/-- Retry loop: `attempt` is the zero-based attempt index, `remaining` the
attempts still allowed. A transient failure with attempts remaining sleeps
`base * 2 ^ attempt` and retries; a permanent failure or success stops. -/
def runWithRetryAux (fetcher : Nat → FetchOutcome) (base : Nat) :
    Nat → Nat → RetryResult
  | _, 0 => { ok := false, attempts := 0, delays := [] }
  | attempt, r + 1 =>
      match fetcher attempt with
      | FetchOutcome.success => { ok := true, attempts := attempt + 1, delays := [] }
      | FetchOutcome.permanent => { ok := false, attempts := attempt + 1, delays := [] }
      | FetchOutcome.transient =>
          if r = 0 then { ok := false, attempts := attempt + 1, delays := [] }
          else
            let rest := runWithRetryAux fetcher base (attempt + 1) r
            { ok := rest.ok, attempts := rest.attempts
            , delays := base * 2 ^ attempt :: rest.delays }

/-- Modelled from the spec: run a fetch with at most `maxAttempts` attempts
and exponential backoff starting at `base`. -/
def runWithRetry (fetcher : Nat → FetchOutcome) (base maxAttempts : Nat) :
    RetryResult :=
  runWithRetryAux fetcher base 0 maxAttempts

/-- C5: under the bounded retry policy with doubling base delay, a fetcher
failing transiently on the first two attempts and succeeding on the third
yields success in exactly 3 attempts with delays `base` then `2 * base`;
and a fetcher whose first attempt fails permanently is never retried —
exactly one attempt, no delay, regardless of the attempt budget. -/
theorem C5_retry_policy (fetcher : Nat → FetchOutcome) (base : Nat) :
    ((fetcher 0 = FetchOutcome.transient → fetcher 1 = FetchOutcome.transient →
      fetcher 2 = FetchOutcome.success →
      runWithRetry fetcher base 3
        = { ok := true, attempts := 3, delays := [base, 2 * base] }))
    ∧ (∀ maxAttempts, 1 ≤ maxAttempts → fetcher 0 = FetchOutcome.permanent →
      runWithRetry fetcher base maxAttempts
        = { ok := false, attempts := 1, delays := [] }) := by
  constructor
  · intro h0 h1 h2
    simp [runWithRetry, runWithRetryAux, h0, h1, h2]
    ring
  · intro maxAttempts hma h0
    rcases maxAttempts with _ | m
    · omega
    · simp [runWithRetry, runWithRetryAux, h0]

/-- Witness for C5 at a concrete fetcher and base delay 100: transient,
transient, success gives 3 attempts with delays 100 and 200; an immediately
permanent fetcher gives exactly one attempt. -/
theorem C5_retry_policy_witness :
    runWithRetry
        (fun n => if n = 0 then FetchOutcome.transient
          else if n = 1 then FetchOutcome.transient else FetchOutcome.success)
        100 3
      = { ok := true, attempts := 3, delays := [100, 200] }
    ∧ runWithRetry (fun _ => FetchOutcome.permanent) 100 3
      = { ok := false, attempts := 1, delays := [] } :=
  ⟨(C5_retry_policy
      (fun n => if n = 0 then FetchOutcome.transient
        else if n = 1 then FetchOutcome.transient else FetchOutcome.success) 100).1
      (by decide) (by decide) (by decide),
   (C5_retry_policy (fun _ => FetchOutcome.permanent) 100).2 3 (by decide) (by decide)⟩

/-! ## The `/api/enrich-python` route handler

Embedded from `src/app/api/enrich-python/route.ts`. The handler's
environment captures the outcomes of its effectful calls: body parsing
(`request.json()` may throw), the health-check fetch (may throw, or return
a response with an `ok` flag), and the enrichment fetch (may throw, or
return a response whose error JSON may itself fail to parse and whose body
is a chunk stream ended by completion or by a read error, or `null`).
JavaScript falsiness of `emailColumn` means both a missing and an empty
string are rejected. -/

/-- A byte chunk read from the backend response body. -/
abbrev ByteChunk := List Nat

/-- How the backend's response body ends: normal completion or a read error. -/
inductive BodyEnd
  | done
  | errored
  deriving DecidableEq, Repr

/-- How the forwarded stream terminates: `controller.close()` or
`controller.error(...)`. -/
inductive StreamTermination
  | closed
  | errored
  deriving DecidableEq, Repr

/-- The stream-forwarding loop of the route: read chunks until `done`,
enqueueing each in order, then close; a read error after some chunks
errors the stream without dropping the chunks already enqueued. -/
def forwardStream : List ByteChunk → BodyEnd → List ByteChunk × StreamTermination
  | [], BodyEnd.done => ([], StreamTermination.closed)
  | [], BodyEnd.errored => ([], StreamTermination.errored)
  | c :: rest, e =>
      let out := forwardStream rest e
      (c :: out.1, out.2)

/-- One row of the parsed request body (a CSV record). -/
abbrev RowData := List (String × String)

/-- The parsed request body `{rows, fields, emailColumn, nameColumn}`;
absent JSON properties are `none`. -/
structure RequestBody where
  rows : Option (List RowData)
  fields : Option (List String)
  emailColumn : Option String
  nameColumn : Option String

/-- The outcome of the enrichment fetch once it returned a response. -/
structure EnrichOutcome where
  ok : Bool
  status : Nat
  errorJsonReadable : Bool
  body : Option (List ByteChunk × BodyEnd)

/-- The effect environment of one request: `none` models a thrown call. -/
structure Env where
  parsed : Option RequestBody
  healthFetch : Option Bool
  enrichFetch : Option EnrichOutcome

/-- The two backend endpoints the handler can call. -/
inductive BackendCall
  | health
  | enrich
  deriving DecidableEq, Repr

/-- A response body: a JSON error payload or the forwarded event stream. -/
inductive RespBody
  | jsonError (msg : String)
  | stream (chunks : List ByteChunk) (t : StreamTermination)
  deriving DecidableEq, Repr

/-- An HTTP response: status code plus body. -/
structure HttpResponse where
  status : Nat
  body : RespBody
  deriving DecidableEq, Repr

/-- The check `!rows || rows.length === 0`. -/
def rowsMissing (b : RequestBody) : Bool :=
  match b.rows with
  | none => true
  | some l => l.isEmpty

/-- The check `!fields || fields.length === 0`. -/
def fieldsMissing (b : RequestBody) : Bool :=
  match b.fields with
  | none => true
  | some l => l.isEmpty

/-- The check `!emailColumn` (undefined and empty string are both falsy). -/
def emailColumnMissing (b : RequestBody) : Bool :=
  match b.emailColumn with
  | none => true
  | some s => s.isEmpty

/-- The 503 message returned when the Python backend is unavailable. -/
def backendUnavailableMsg : String :=
  "Python backend not available. Please start the Python server with: python -m uvicorn src.api_server:app --reload --port 8000"

/-- The body of the handler's outer `try`, with the inner health-check
`try/catch` inlined; `Except.error` models an exception escaping to the
outer `catch`. The second component is the ordered log of backend calls
issued. -/
def tryBlock (env : Env) : Except Unit (HttpResponse × List BackendCall) × List BackendCall :=
  match env.parsed with
  | none => (Except.error (), [])
  | some b =>
    if rowsMissing b then
      (Except.ok ({ status := 400, body := RespBody.jsonError "No rows provided" }, []), [])
    else if fieldsMissing b then
      (Except.ok ({ status := 400, body := RespBody.jsonError "No fields provided" }, []), [])
    else if emailColumnMissing b then
      (Except.ok ({ status := 400, body := RespBody.jsonError "Email column is required" }, []), [])
    else
      match env.healthFetch with
      | none =>
          (Except.ok ({ status := 503, body := RespBody.jsonError backendUnavailableMsg },
            [BackendCall.health]), [BackendCall.health])
      | some false =>
          (Except.ok ({ status := 503, body := RespBody.jsonError backendUnavailableMsg },
            [BackendCall.health]), [BackendCall.health])
      | some true =>
          match env.enrichFetch with
          | none => (Except.error (), [BackendCall.health, BackendCall.enrich])
          | some po =>
              if po.ok = false then
                if po.errorJsonReadable then
                  (Except.ok
                    ({ status := po.status, body := RespBody.jsonError "Python backend error" },
                    [BackendCall.health, BackendCall.enrich]),
                    [BackendCall.health, BackendCall.enrich])
                else
                  (Except.error (), [BackendCall.health, BackendCall.enrich])
              else
                match po.body with
                | none =>
                    (Except.ok
                      ({ status := 200, body := RespBody.stream [] StreamTermination.errored },
                      [BackendCall.health, BackendCall.enrich]),
                      [BackendCall.health, BackendCall.enrich])
                | some (chunks, e) =>
                    (Except.ok
                      ({ status := 200,
                         body := RespBody.stream (forwardStream chunks e).1 (forwardStream chunks e).2 },
                      [BackendCall.health, BackendCall.enrich]),
                      [BackendCall.health, BackendCall.enrich])

/-- The handler: the outer `catch` turns any escaped exception into a 500
JSON error response; the call log is preserved. -/
def POST (env : Env) : HttpResponse × List BackendCall :=
  match tryBlock env with
  | (Except.ok rc, _) => rc
  | (Except.error _, calls) =>
      ({ status := 500, body := RespBody.jsonError "Internal server error" }, calls)

lemma forwardStream_done (chunks : List ByteChunk) :
    forwardStream chunks BodyEnd.done = (chunks, StreamTermination.closed) := by
  induction chunks with
  | nil => rfl
  | cons c rest ih => simp [forwardStream, ih]

lemma forwardStream_closed_of (chunks : List ByteChunk) (e : BodyEnd)
    (h : (forwardStream chunks e).2 = StreamTermination.closed) : e = BodyEnd.done := by
  induction chunks with
  | nil =>
      cases e with
      | done => rfl
      | errored => exact absurd h (by simp [forwardStream])
  | cons c rest ih =>
      apply ih
      simpa [forwardStream] using h

/-- C6: the forwarded event stream contains every chunk read from the
backend body, in order, with nothing dropped or reordered; the stream is
closed only when the backend signalled completion; and on the handler's
success path the 200 response carries exactly that stream. -/
theorem C6_stream_forwards_chunks (chunks : List ByteChunk) :
    forwardStream chunks BodyEnd.done = (chunks, StreamTermination.closed)
    ∧ (∀ e, (forwardStream chunks e).2 = StreamTermination.closed → e = BodyEnd.done)
    ∧ (∀ env b po, env.parsed = some b → rowsMissing b = false →
        fieldsMissing b = false → emailColumnMissing b = false →
        env.healthFetch = some true → env.enrichFetch = some po →
        po.ok = true → po.body = some (chunks, BodyEnd.done) →
        (POST env).1
          = { status := 200, body := RespBody.stream chunks StreamTermination.closed }) := by
  refine ⟨forwardStream_done chunks, fun e => forwardStream_closed_of chunks e, ?_⟩
  intro env b po hp hr hf he hh hen hok hbody
  simp [POST, tryBlock, hp, hr, hf, he, hh, hen, hok, hbody, forwardStream_done]

/-- Witness for C6 at a concrete two-chunk body forwarded through a
concrete successful request. -/
theorem C6_stream_forwards_chunks_witness :
    forwardStream [[104, 105], [33]] BodyEnd.done
      = ([[104, 105], [33]], StreamTermination.closed)
    ∧ BodyEnd.done = BodyEnd.done
    ∧ (POST ⟨some ⟨some [[("email", "a@b.c")]], some ["industry"], some "email", none⟩,
        some true, some ⟨true, 200, true, some ([[104, 105], [33]], BodyEnd.done)⟩⟩).1
      = { status := 200, body := RespBody.stream [[104, 105], [33]] StreamTermination.closed } :=
  ⟨(C6_stream_forwards_chunks [[104, 105], [33]]).1,
   (C6_stream_forwards_chunks [[104, 105], [33]]).2.1 BodyEnd.done (by rfl),
   (C6_stream_forwards_chunks [[104, 105], [33]]).2.2 _ _ _
     rfl rfl rfl rfl rfl rfl rfl rfl⟩

/-- C7: for every request environment — including a body that fails to
parse and backend calls that throw — the handler returns an HTTP response
carrying either the 200 event stream or a JSON error payload; no exception
crosses its boundary. -/
theorem C7_handler_always_returns (env : Env) :
    ((POST env).1.status = 200
      ∧ ∃ chunks t, (POST env).1.body = RespBody.stream chunks t)
    ∨ (∃ msg, (POST env).1.body = RespBody.jsonError msg) := by
  rcases env with ⟨p, hfetch, efetch⟩
  cases p with
  | none => exact Or.inr ⟨"Internal server error", rfl⟩
  | some b =>
      by_cases hr : rowsMissing b = true
      · exact Or.inr ⟨"No rows provided", by simp [POST, tryBlock, hr]⟩
      · rw [Bool.not_eq_true] at hr
        by_cases hf : fieldsMissing b = true
        · exact Or.inr ⟨"No fields provided", by simp [POST, tryBlock, hr, hf]⟩
        · rw [Bool.not_eq_true] at hf
          by_cases he : emailColumnMissing b = true
          · exact Or.inr ⟨"Email column is required", by simp [POST, tryBlock, hr, hf, he]⟩
          · rw [Bool.not_eq_true] at he
            cases hfetch with
            | none => exact Or.inr ⟨backendUnavailableMsg, by simp [POST, tryBlock, hr, hf, he]⟩
            | some hok =>
                cases hok with
                | false =>
                    exact Or.inr ⟨backendUnavailableMsg, by simp [POST, tryBlock, hr, hf, he]⟩
                | true =>
                    cases efetch with
                    | none =>
                        exact Or.inr ⟨"Internal server error",
                          by simp [POST, tryBlock, hr, hf, he]⟩
                    | some po =>
                        by_cases hpo : po.ok = false
                        · by_cases hj : po.errorJsonReadable = true
                          · exact Or.inr ⟨"Python backend error",
                              by simp [POST, tryBlock, hr, hf, he, hpo, hj]⟩
                          · rw [Bool.not_eq_true] at hj
                            exact Or.inr ⟨"Internal server error",
                              by simp [POST, tryBlock, hr, hf, he, hpo, hj]⟩
                        · rcases hbody : po.body with _ | ⟨chunks, e⟩
                          · refine Or.inl ⟨?_, [], StreamTermination.errored,
                              by simp [POST, tryBlock, hr, hf, he, hpo, hbody]⟩
                            simp [POST, tryBlock, hr, hf, he, hpo, hbody]
                          · refine Or.inl ⟨?_, (forwardStream chunks e).1,
                              (forwardStream chunks e).2,
                              by simp [POST, tryBlock, hr, hf, he, hpo, hbody]⟩
                            simp [POST, tryBlock, hr, hf, he, hpo, hbody]

/-- C9: a request with missing or empty rows, missing or empty fields, or
a missing email column is answered 400 with the corresponding message (the
first failing check in source order), and no backend request is issued. -/
theorem C9_validation_no_backend_call (env : Env) (b : RequestBody)
    (hp : env.parsed = some b) :
    (rowsMissing b = true →
      POST env = ({ status := 400, body := RespBody.jsonError "No rows provided" }, []))
    ∧ (rowsMissing b = false → fieldsMissing b = true →
      POST env = ({ status := 400, body := RespBody.jsonError "No fields provided" }, []))
    ∧ (rowsMissing b = false → fieldsMissing b = false → emailColumnMissing b = true →
      POST env = ({ status := 400, body := RespBody.jsonError "Email column is required" }, [])) := by
  refine ⟨fun hr => ?_, fun hr hf => ?_, fun hr hf he => ?_⟩
  · simp [POST, tryBlock, hp, hr]
  · simp [POST, tryBlock, hp, hr, hf]
  · simp [POST, tryBlock, hp, hr, hf, he]

/-- Witness for C9: three concrete malformed requests — empty rows, then
empty fields, then missing email column — each answered 400 with the
matching message and an empty backend-call log. -/
theorem C9_validation_no_backend_call_witness :
    POST ⟨some ⟨some [], some ["industry"], some "email", none⟩, none, none⟩
      = ({ status := 400, body := RespBody.jsonError "No rows provided" }, [])
    ∧ POST ⟨some ⟨some [[("email", "a@b.c")]], some [], some "email", none⟩, none, none⟩
      = ({ status := 400, body := RespBody.jsonError "No fields provided" }, [])
    ∧ POST ⟨some ⟨some [[("email", "a@b.c")]], some ["industry"], none, none⟩, none, none⟩
      = ({ status := 400, body := RespBody.jsonError "Email column is required" }, []) :=
  ⟨(C9_validation_no_backend_call
      ⟨some ⟨some [], some ["industry"], some "email", none⟩, none, none⟩
      ⟨some [], some ["industry"], some "email", none⟩ rfl).1 rfl,
   (C9_validation_no_backend_call
      ⟨some ⟨some [[("email", "a@b.c")]], some [], some "email", none⟩, none, none⟩
      ⟨some [[("email", "a@b.c")]], some [], some "email", none⟩ rfl).2.1 rfl rfl,
   (C9_validation_no_backend_call
      ⟨some ⟨some [[("email", "a@b.c")]], some ["industry"], none, none⟩, none, none⟩
      ⟨some [[("email", "a@b.c")]], some ["industry"], none, none⟩ rfl).2.2 rfl rfl rfl⟩

/-- C10: for every valid request the health check is issued before any
enrichment call (the call log is `[health]` or `[health, enrich]`), and if
the health check throws or returns non-ok the handler answers 503 without
ever calling the enrichment endpoint. -/
theorem C10_health_check_gates_enrich (env : Env) (b : RequestBody)
    (hp : env.parsed = some b) (hr : rowsMissing b = false)
    (hf : fieldsMissing b = false) (he : emailColumnMissing b = false) :
    ((POST env).2 = [BackendCall.health]
      ∨ (POST env).2 = [BackendCall.health, BackendCall.enrich])
    ∧ ((env.healthFetch = none ∨ env.healthFetch = some false) →
        (POST env).1.status = 503 ∧ (POST env).2 = [BackendCall.health]) := by
  rcases env with ⟨p, hfetch, efetch⟩
  simp only at hp
  constructor
  · cases hfetch with
    | none => exact Or.inl (by simp [POST, tryBlock, hp, hr, hf, he])
    | some hok =>
        cases hok with
        | false => exact Or.inl (by simp [POST, tryBlock, hp, hr, hf, he])
        | true =>
            cases efetch with
            | none => exact Or.inr (by simp [POST, tryBlock, hp, hr, hf, he])
            | some po =>
                by_cases hpo : po.ok = false
                · by_cases hj : po.errorJsonReadable = true
                  · exact Or.inr (by simp [POST, tryBlock, hp, hr, hf, he, hpo, hj])
                  · rw [Bool.not_eq_true] at hj
                    exact Or.inr (by simp [POST, tryBlock, hp, hr, hf, he, hpo, hj])
                · rcases hbody : po.body with _ | ⟨chunks, e⟩
                  · exact Or.inr (by simp [POST, tryBlock, hp, hr, hf, he, hpo, hbody])
                  · exact Or.inr (by simp [POST, tryBlock, hp, hr, hf, he, hpo, hbody])
  · intro hbad
    rcases hbad with hnone | hfalse
    · simp only at hnone
      subst hnone
      constructor <;> simp [POST, tryBlock, hp, hr, hf, he]
    · simp only at hfalse
      subst hfalse
      constructor <;> simp [POST, tryBlock, hp, hr, hf, he]

/-- Witness for C10: a concrete valid request whose health check returns a
non-ok response is answered 503 with only the health call issued. -/
theorem C10_health_check_gates_enrich_witness :
    ((POST ⟨some ⟨some [[("email", "a@b.c")]], some ["industry"], some "email", none⟩,
        some false, none⟩).2 = [BackendCall.health]
      ∨ (POST ⟨some ⟨some [[("email", "a@b.c")]], some ["industry"], some "email", none⟩,
        some false, none⟩).2 = [BackendCall.health, BackendCall.enrich])
    ∧ ((some false = (none : Option Bool) ∨ some false = some false) →
        (POST ⟨some ⟨some [[("email", "a@b.c")]], some ["industry"], some "email", none⟩,
          some false, none⟩).1.status = 503
        ∧ (POST ⟨some ⟨some [[("email", "a@b.c")]], some ["industry"], some "email", none⟩,
          some false, none⟩).2 = [BackendCall.health]) :=
  C10_health_check_gates_enrich _ _ rfl rfl rfl rfl

end LeadEnrich
